import Mathlib

/-!
# Verification of `IBTK::FixedSizedStream`

Shallow embedding of `src/ibtk/include/ibtk/private/FixedSizedStream-inl.h`:
a fixed-capacity byte buffer with a movable cursor (`d_buffer_index`), a
high-water mark (`d_current_size`) and typed pack/unpack entry points that all
funnel through `getPointerAndAdvanceCursor`.

Modelling choices:
* the byte buffer is a total function `Int → Nat` (byte value at each address),
  so that accesses at negative or past-capacity addresses are representable —
  the C++ code can produce such accesses;
* `TBOX_ERROR` aborts the program, so each operation returns, besides the
  successor state, an error flag (`Bool` for packs, `Option` output for
  unpacks); the successor state on the error path is the state at the moment
  `TBOX_ERROR` fires (fields already mutated by the source lines that ran
  before it);
* multi-byte values are modelled by their object representation: the list of
  raw bytes `memcpy` moves.  The stream never inspects those bytes, so this is
  exact.
-/

namespace IBTK

/-- Modelled from the spec: the packed byte widths returned by the external
`SAMRAI::tbox::AbstractStream::sizeof*` helpers (the per-kind encoding table:
1 byte per boolean). -/
def sizeofBool (n : Nat) : Nat := n

/-- Modelled from the spec: 1 byte per character. -/
def sizeofChar (n : Nat) : Nat := n

/-- Modelled from the spec: 4 bytes per (32-bit signed) integer. -/
def sizeofInt (n : Nat) : Nat := 4 * n

/-- Modelled from the spec: 4 bytes per single-precision float. -/
def sizeofFloat (n : Nat) : Nat := 4 * n

/-- Modelled from the spec: 8 bytes per double-precision float. -/
def sizeofDouble (n : Nat) : Nat := 8 * n

/-- Modelled from the spec: 16 bytes per double-precision complex pair. -/
def sizeofDoubleComplex (n : Nat) : Nat := 16 * n

/-- State of a `FixedSizedStream`: the byte buffer, the fixed capacity
`d_buffer_size`, the cursor `d_buffer_index` and the high-water mark
`d_current_size` (all `int` in the source, hence `Int` here). -/
structure FixedSizedStream where
  d_buffer : Int → Nat
  d_buffer_size : Int
  d_buffer_index : Int
  d_current_size : Int

/-- A freshly constructed stream of capacity `C`: cursor 0, high-water mark 0,
zeroed storage. -/
def freshStream (C : Int) : FixedSizedStream :=
  { d_buffer := fun _ => 0
    d_buffer_size := C
    d_buffer_index := 0
    d_current_size := 0 }

/-- Embeds `FixedSizedStream::getCurrentSize`. -/
def getCurrentSize (s : FixedSizedStream) : Int := s.d_current_size

/-- Embeds `FixedSizedStream::getCurrentIndex`. -/
def getCurrentIndex (s : FixedSizedStream) : Int := s.d_buffer_index

/-- Embeds `FixedSizedStream::setCurrentIndex`. -/
def setCurrentIndex (s : FixedSizedStream) (index : Int) : FixedSizedStream :=
  { s with d_buffer_index := index }

/-- Embeds `FixedSizedStream::resetIndex`. -/
def resetIndex (s : FixedSizedStream) : FixedSizedStream :=
  setCurrentIndex s 0

/-- Store byte `v` at address `a` of buffer `buf`. -/
def writeByte (buf : Int → Nat) (a : Int) (v : Nat) : Int → Nat :=
  fun x => if x = a then v else buf x

/-- Models `memcpy` into the buffer: store the bytes `vs` at consecutive addresses
starting at `a`. -/
def writeBytes (buf : Int → Nat) (a : Int) : List Nat → (Int → Nat)
  | [] => buf
  | v :: vs => writeBytes (writeByte buf a v) (a + 1) vs

/-- Models `memcpy` out of the buffer: the `n` bytes at consecutive addresses
starting at `a`. -/
def readBytes (buf : Int → Nat) (a : Int) : Nat → List Nat
  | 0 => []
  | n + 1 => buf a :: readBytes buf (a + 1) n

/-- Result of `getPointerAndAdvanceCursor`: the returned pointer (as an offset
into the buffer), whether `TBOX_ERROR` fired, and the stream state on return
(on the error path: at the moment the error fired). -/
structure AdvanceResult where
  ptr : Int
  overrun : Bool
  st : FixedSizedStream

/-- Embeds `FixedSizedStream::getPointerAndAdvanceCursor`: return the address at the
cursor, advance the cursor by `bytes`, and — only when the new cursor exceeds
the high-water mark — raise the mark and check the capacity. -/
def getPointerAndAdvanceCursor (s : FixedSizedStream) (bytes : Int) :
    AdvanceResult :=
  let ptr := s.d_buffer_index
  let idx := s.d_buffer_index + bytes
  if idx > s.d_current_size then
    { ptr := ptr
      overrun := decide (idx > s.d_buffer_size)
      st := { s with d_buffer_index := idx, d_current_size := idx } }
  else
    { ptr := ptr
      overrun := false
      st := { s with d_buffer_index := idx } }

/-- Embeds `FixedSizedStream::__pack`: advance the cursor by `m_bytes` and, unless
`TBOX_ERROR` fired first, `memcpy` the `m_bytes` source bytes `raw` to the
returned pointer.  Second component: whether the overrun error fired. -/
def packRaw (s : FixedSizedStream) (raw : List Nat) (m_bytes : Nat) :
    FixedSizedStream × Bool :=
  let r := getPointerAndAdvanceCursor s (m_bytes : Int)
  if r.overrun then
    (r.st, true)
  else
    ({ r.st with d_buffer := writeBytes s.d_buffer r.ptr (raw.take m_bytes) },
      false)

/-- Embeds `FixedSizedStream::__unpack`: advance the cursor by `m_bytes` and, unless
`TBOX_ERROR` fired first, `memcpy` the `m_bytes` bytes at the returned pointer
into the caller's output (the `Option` payload; `none` when the error fired
and nothing was copied out). -/
def unpackRaw (s : FixedSizedStream) (m_bytes : Nat) :
    FixedSizedStream × Option (List Nat) :=
  let r := getPointerAndAdvanceCursor s (m_bytes : Int)
  if r.overrun then
    (r.st, none)
  else
    (r.st, some (readBytes s.d_buffer r.ptr m_bytes))

/-- Embeds `FixedSizedStream::pack(const bool*, int)`: element-wise canonicalising
loop, `c_ptr[i] = data[i] ? 1 : 0`. -/
def packBool (s : FixedSizedStream) (data : List Bool) :
    FixedSizedStream × Bool :=
  let bytes := sizeofBool data.length
  let r := getPointerAndAdvanceCursor s (bytes : Int)
  if r.overrun then
    (r.st, true)
  else
    ({ r.st with
        d_buffer :=
          writeBytes s.d_buffer r.ptr
            (data.map fun b => if b then 1 else 0) },
      false)

/-- Embeds `FixedSizedStream::unpack(bool*, int)`: element-wise decoding loop,
`data[i] = (c_ptr[i] == 1)`. -/
def unpackBool (s : FixedSizedStream) (n : Nat) :
    FixedSizedStream × Option (List Bool) :=
  let bytes := sizeofBool n
  let r := getPointerAndAdvanceCursor s (bytes : Int)
  if r.overrun then
    (r.st, none)
  else
    (r.st, some ((readBytes s.d_buffer r.ptr n).map fun c => c == 1))

/-- Embeds `FixedSizedStream::pack(const char*, int)`. -/
def packChar (s : FixedSizedStream) (data : List Nat) (n : Nat) :
    FixedSizedStream × Bool :=
  packRaw s data (sizeofChar n)

/-- Embeds `FixedSizedStream::unpack(char*, int)`. -/
def unpackChar (s : FixedSizedStream) (n : Nat) :
    FixedSizedStream × Option (List Nat) :=
  unpackRaw s (sizeofChar n)

/-- Embeds `FixedSizedStream::pack(const int*, int)`. -/
def packInt (s : FixedSizedStream) (data : List Nat) (n : Nat) :
    FixedSizedStream × Bool :=
  packRaw s data (sizeofInt n)

/-- Embeds `FixedSizedStream::unpack(int*, int)`. -/
def unpackInt (s : FixedSizedStream) (n : Nat) :
    FixedSizedStream × Option (List Nat) :=
  unpackRaw s (sizeofInt n)

/-- Embeds `FixedSizedStream::pack(const float*, int)`. -/
def packFloat (s : FixedSizedStream) (data : List Nat) (n : Nat) :
    FixedSizedStream × Bool :=
  packRaw s data (sizeofFloat n)

/-- Embeds `FixedSizedStream::unpack(float*, int)`. -/
def unpackFloat (s : FixedSizedStream) (n : Nat) :
    FixedSizedStream × Option (List Nat) :=
  unpackRaw s (sizeofFloat n)

/-- Embeds `FixedSizedStream::pack(const double*, int)`. -/
def packDouble (s : FixedSizedStream) (data : List Nat) (n : Nat) :
    FixedSizedStream × Bool :=
  packRaw s data (sizeofDouble n)

/-- Embeds `FixedSizedStream::unpack(double*, int)`. -/
def unpackDouble (s : FixedSizedStream) (n : Nat) :
    FixedSizedStream × Option (List Nat) :=
  unpackRaw s (sizeofDouble n)

/-- Embeds `FixedSizedStream::pack(const dcomplex*, int)`. -/
def packDoubleComplex (s : FixedSizedStream) (data : List Nat) (n : Nat) :
    FixedSizedStream × Bool :=
  packRaw s data (sizeofDoubleComplex n)

/-- Embeds `FixedSizedStream::unpack(dcomplex*, int)`. -/
def unpackDoubleComplex (s : FixedSizedStream) (n : Nat) :
    FixedSizedStream × Option (List Nat) :=
  unpackRaw s (sizeofDoubleComplex n)

/-! ## Sequences of pack/unpack calls

To talk about whole pack/unpack sessions we describe a call by its kind and
payload and interpret it through the typed entry points above. -/

/-- The raw-copied primitive kinds (all supported kinds except boolean, which
is canonicalised element-wise). -/
inductive RawKind
  | char
  | int
  | float
  | double
  | dcomplex
deriving DecidableEq

/-- The byte count the typed entry point of kind `k` requests for `n`
elements. -/
def sizeofRawKind : RawKind → Nat → Nat
  | .char, n => sizeofChar n
  | .int, n => sizeofInt n
  | .float, n => sizeofFloat n
  | .double, n => sizeofDouble n
  | .dcomplex, n => sizeofDoubleComplex n

/-- One typed pack (or matching unpack) call: a boolean array, or `n` elements
of a raw-copied kind given by their object-representation bytes. -/
inductive Call
  | bools (data : List Bool)
  | raw (k : RawKind) (n : Nat) (data : List Nat)
deriving DecidableEq

/-- Bytes the call advances the cursor by. -/
def callBytes : Call → Nat
  | .bools data => sizeofBool data.length
  | .raw k n _ => sizeofRawKind k n

/-- A raw call is well formed when its payload has exactly the byte width the
typed entry point will `memcpy`. -/
def callWF : Call → Bool
  | .bools _ => true
  | .raw k n data => data.length == sizeofRawKind k n

/-- All calls of a session are well formed. -/
def callsWF (calls : List Call) : Bool :=
  calls.all callWF

/-- The bytes the call stores in the buffer. -/
def encodeCall : Call → List Nat
  | .bools data => data.map fun b => if b then 1 else 0
  | .raw k n data => data.take (sizeofRawKind k n)

/-- The values a matching unpack hands back to the caller. -/
inductive Vals
  | bools (data : List Bool)
  | raw (data : List Nat)
deriving DecidableEq

/-- The values a call packs, as the matching unpack would report them. -/
def callVals : Call → Vals
  | .bools data => .bools data
  | .raw _ _ data => .raw data

/-- Interpret a call through the typed pack entry point of its kind. -/
def runPackCall (s : FixedSizedStream) : Call → FixedSizedStream × Bool
  | .bools data => packBool s data
  | .raw .char n data => packChar s data n
  | .raw .int n data => packInt s data n
  | .raw .float n data => packFloat s data n
  | .raw .double n data => packDouble s data n
  | .raw .dcomplex n data => packDoubleComplex s data n

/-- Interpret a call shape through the typed unpack entry point of its kind
(the payload only fixes the element count). -/
def runUnpackCall (s : FixedSizedStream) : Call → FixedSizedStream × Option Vals
  | .bools data =>
    let r := unpackBool s data.length
    (r.1, r.2.map .bools)
  | .raw .char n _ =>
    let r := unpackChar s n
    (r.1, r.2.map .raw)
  | .raw .int n _ =>
    let r := unpackInt s n
    (r.1, r.2.map .raw)
  | .raw .float n _ =>
    let r := unpackFloat s n
    (r.1, r.2.map .raw)
  | .raw .double n _ =>
    let r := unpackDouble s n
    (r.1, r.2.map .raw)
  | .raw .dcomplex n _ =>
    let r := unpackDoubleComplex s n
    (r.1, r.2.map .raw)

/-- Run a sequence of pack calls; `true` means a `TBOX_ERROR` aborted the
sequence (no further call runs). -/
def runPack (s : FixedSizedStream) : List Call → FixedSizedStream × Bool
  | [] => (s, false)
  | c :: cs =>
    let r := runPackCall s c
    if r.2 then (r.1, true) else runPack r.1 cs

/-- Run a sequence of unpack calls of the same shapes; `none` means a
`TBOX_ERROR` aborted the sequence. -/
def runUnpack (s : FixedSizedStream) :
    List Call → FixedSizedStream × Option (List Vals)
  | [] => (s, some [])
  | c :: cs =>
    let r := runUnpackCall s c
    match r.2 with
    | none => (r.1, none)
    | some v =>
      let rest := runUnpack r.1 cs
      (rest.1, rest.2.map fun vs => v :: vs)

/-- Total byte footprint of a call sequence. -/
def totalBytes (calls : List Call) : Nat :=
  (calls.map callBytes).sum

/-! ## Operation traces

For the high-water-mark and reachability claims we need arbitrary interleaved
sequences of packs, unpacks and seeks. -/

/-- One stream operation: a raw pack of `m` bytes, a boolean pack, a raw
unpack of `m` bytes, a boolean unpack of `n` elements, or a
`setCurrentIndex`. -/
inductive SOp
  | pack (raw : List Nat) (m : Nat)
  | packB (data : List Bool)
  | unpack (m : Nat)
  | unpackB (n : Nat)
  | seek (i : Int)
deriving DecidableEq

/-- Run one operation; `none` when `TBOX_ERROR` fired (the program aborts, so
later states are unreachable). -/
def stepOp (s : FixedSizedStream) : SOp → Option FixedSizedStream
  | .pack raw m =>
    let r := packRaw s raw m
    if r.2 then none else some r.1
  | .packB data =>
    let r := packBool s data
    if r.2 then none else some r.1
  | .unpack m =>
    let r := unpackRaw s m
    if r.2.isSome then some r.1 else none
  | .unpackB n =>
    let r := unpackBool s n
    if r.2.isSome then some r.1 else none
  | .seek i => some (setCurrentIndex s i)

/-- Run a trace, carrying the running maximum `acc` of every cursor value
reached (the cursor after each operation, seeks included). -/
def runTrace (s : FixedSizedStream) (acc : Int) :
    List SOp → Option (FixedSizedStream × Int)
  | [] => some (s, acc)
  | op :: ops =>
    match stepOp s op with
    | none => none
    | some s' => runTrace s' (max acc s'.d_buffer_index) ops

/-- Run a trace, carrying the running maximum `acc` of the cursor values
reached by pack/unpack advances only (seeks leave `acc` alone). -/
def runTraceAdv (s : FixedSizedStream) (acc : Int) :
    List SOp → Option (FixedSizedStream × Int)
  | [] => some (s, acc)
  | op :: ops =>
    match stepOp s op with
    | none => none
    | some s' =>
      match op with
      | .seek _ => runTraceAdv s' acc ops
      | _ => runTraceAdv s' (max acc s'.d_buffer_index) ops

/-- States reachable from a freshly constructed stream by successful
operations (after a `TBOX_ERROR` the program has aborted, so error states
have no successors). -/
inductive Reachable : FixedSizedStream → Prop
  | fresh (C : Int) (hC : 0 ≤ C) : Reachable (freshStream C)
  | step (s : FixedSizedStream) (op : SOp) (s' : FixedSizedStream)
      (hs : Reachable s) (h : stepOp s op = some s') : Reachable s'

/-- How an unpack call of shape `c` decodes the bytes it copied out of the
buffer: booleans through the `== 1` loop, everything else verbatim. -/
def decodeVals : Call → List Nat → Vals
  | .bools _, bytes => .bools (bytes.map fun c => c == 1)
  | .raw _ _ _, bytes => .raw bytes

/-- A demonstration state: pack 8 bytes into a fresh 16-byte stream (cursor
and high-water mark 8), then seek the cursor to -8. -/
def demoOOB : FixedSizedStream :=
  setCurrentIndex (packRaw (freshStream 16) (List.replicate 8 1) 8).1 (-8)

/-- A demonstration state whose buffer holds the non-canonical byte values
2 and 255 besides 1 and 0. -/
def demoBoolBuf : FixedSizedStream :=
  { d_buffer := fun a =>
      if a = 0 then 2 else if a = 1 then 255 else if a = 2 then 1 else 0
    d_buffer_size := 4
    d_buffer_index := 0
    d_current_size := 4 }

/-! ## Buffer lemmas -/

lemma writeBytes_apply_out (vs : List Nat) (buf : Int → Nat) (a x : Int)
    (h : x < a ∨ a + vs.length ≤ x) : writeBytes buf a vs x = buf x := by
  induction vs generalizing buf a with
  | nil => rfl
  | cons v vs ih =>
    simp only [writeBytes]
    rw [ih]
    · simp only [writeByte]
      rw [if_neg]
      simp only [List.length_cons] at h
      push_cast at h
      omega
    · simp only [List.length_cons] at h
      push_cast at h ⊢
      omega

lemma readBytes_length (buf : Int → Nat) (a : Int) (n : Nat) :
    (readBytes buf a n).length = n := by
  induction n generalizing a with
  | zero => rfl
  | succ n ih => simp [readBytes, ih]

lemma readBytes_congr (n : Nat) (buf buf' : Int → Nat) (a : Int)
    (h : ∀ x : Int, a ≤ x → x < a + n → buf x = buf' x) :
    readBytes buf a n = readBytes buf' a n := by
  induction n generalizing a with
  | zero => rfl
  | succ n ih =>
    simp only [readBytes]
    rw [h a le_rfl (by push_cast; omega), ih (a + 1)]
    intro x hx hx'
    refine h x (by omega) (by push_cast at hx' ⊢; omega)

lemma readBytes_writeBytes (vs : List Nat) (buf : Int → Nat) (a : Int) :
    readBytes (writeBytes buf a vs) a vs.length = vs := by
  induction vs generalizing buf a with
  | nil => rfl
  | cons v vs ih =>
    simp only [List.length_cons, readBytes, writeBytes]
    rw [writeBytes_apply_out vs _ (a + 1) a (Or.inl (by omega))]
    rw [ih (writeByte buf a v) (a + 1)]
    simp [writeByte]

lemma readBytes_add (buf : Int → Nat) (a : Int) (m n : Nat) :
    readBytes buf a (m + n) =
      readBytes buf a m ++ readBytes buf (a + m) n := by
  induction m generalizing a with
  | zero => simp [readBytes]
  | succ m ih =>
    have : m + 1 + n = (m + n) + 1 := by omega
    rw [this]
    simp only [readBytes, List.cons_append]
    rw [ih (a + 1)]
    have : a + 1 + (m : Int) = a + ((m : Nat) + 1 : Nat) := by push_cast; omega
    rw [this]

/-! ## Field lemmas for the cursor-advance primitive -/

lemma advance_ptr (s : FixedSizedStream) (bytes : Int) :
    (getPointerAndAdvanceCursor s bytes).ptr = s.d_buffer_index := by
  simp only [getPointerAndAdvanceCursor]
  split <;> rfl

lemma advance_buffer (s : FixedSizedStream) (bytes : Int) :
    (getPointerAndAdvanceCursor s bytes).st.d_buffer = s.d_buffer := by
  simp only [getPointerAndAdvanceCursor]
  split <;> rfl

lemma advance_capacity (s : FixedSizedStream) (bytes : Int) :
    (getPointerAndAdvanceCursor s bytes).st.d_buffer_size = s.d_buffer_size := by
  simp only [getPointerAndAdvanceCursor]
  split <;> rfl

lemma advance_index (s : FixedSizedStream) (bytes : Int) :
    (getPointerAndAdvanceCursor s bytes).st.d_buffer_index =
      s.d_buffer_index + bytes := by
  simp only [getPointerAndAdvanceCursor]
  split <;> rfl

lemma advance_size (s : FixedSizedStream) (bytes : Int) :
    (getPointerAndAdvanceCursor s bytes).st.d_current_size =
      max s.d_current_size (s.d_buffer_index + bytes) := by
  simp only [getPointerAndAdvanceCursor]
  split <;> simp <;> omega

lemma advance_overrun (s : FixedSizedStream) (bytes : Int) :
    (getPointerAndAdvanceCursor s bytes).overrun =
      (decide (s.d_current_size < s.d_buffer_index + bytes) &&
        decide (s.d_buffer_size < s.d_buffer_index + bytes)) := by
  simp only [getPointerAndAdvanceCursor]
  split <;> rename_i h
  · simp only []
    rw [decide_eq_true (by omega : s.d_current_size < s.d_buffer_index + bytes)]
    simp [gt_iff_lt]
  · simp only []
    rw [decide_eq_false (by omega : ¬ s.d_current_size < s.d_buffer_index + bytes)]
    simp

/-! ## Success and failure characterisations of the operations -/

lemma advance_eq_of_le (s : FixedSizedStream) (bytes : Int)
    (h : s.d_buffer_index + bytes ≤ s.d_buffer_size) :
    getPointerAndAdvanceCursor s bytes =
      { ptr := s.d_buffer_index
        overrun := false
        st :=
          { s with
              d_buffer_index := s.d_buffer_index + bytes
              d_current_size :=
                max s.d_current_size (s.d_buffer_index + bytes) } } := by
  simp only [getPointerAndAdvanceCursor]
  split <;> rename_i h'
  · rw [show (decide (s.d_buffer_index + bytes > s.d_buffer_size)) = false from
        by simp only [decide_eq_false_iff_not, gt_iff_lt, not_lt]; exact h]
    rw [max_eq_right (le_of_lt h')]
  · rw [max_eq_left (by omega)]

lemma packRaw_of_le (s : FixedSizedStream) (raw : List Nat) (m : Nat)
    (h : s.d_buffer_index + (m : Int) ≤ s.d_buffer_size) :
    packRaw s raw m =
      ({ d_buffer := writeBytes s.d_buffer s.d_buffer_index (raw.take m)
         d_buffer_size := s.d_buffer_size
         d_buffer_index := s.d_buffer_index + m
         d_current_size := max s.d_current_size (s.d_buffer_index + m) },
        false) := by
  simp only [packRaw]
  rw [advance_eq_of_le s (m : Int) h]
  simp

lemma unpackRaw_of_le (s : FixedSizedStream) (m : Nat)
    (h : s.d_buffer_index + (m : Int) ≤ s.d_buffer_size) :
    unpackRaw s m =
      ({ s with
          d_buffer_index := s.d_buffer_index + m
          d_current_size := max s.d_current_size (s.d_buffer_index + m) },
        some (readBytes s.d_buffer s.d_buffer_index m)) := by
  simp only [unpackRaw]
  rw [advance_eq_of_le s (m : Int) h]
  simp

lemma packBool_of_le (s : FixedSizedStream) (data : List Bool)
    (h : s.d_buffer_index + (sizeofBool data.length : Int) ≤ s.d_buffer_size) :
    packBool s data =
      ({ d_buffer :=
           writeBytes s.d_buffer s.d_buffer_index
             (data.map fun b => if b then 1 else 0)
         d_buffer_size := s.d_buffer_size
         d_buffer_index := s.d_buffer_index + sizeofBool data.length
         d_current_size :=
           max s.d_current_size
             (s.d_buffer_index + sizeofBool data.length) },
        false) := by
  simp only [packBool]
  rw [advance_eq_of_le s (sizeofBool data.length : Int) h]
  simp

lemma unpackBool_of_le (s : FixedSizedStream) (n : Nat)
    (h : s.d_buffer_index + (sizeofBool n : Int) ≤ s.d_buffer_size) :
    unpackBool s n =
      ({ s with
          d_buffer_index := s.d_buffer_index + sizeofBool n
          d_current_size :=
            max s.d_current_size (s.d_buffer_index + sizeofBool n) },
        some ((readBytes s.d_buffer s.d_buffer_index n).map fun c => c == 1)) := by
  simp only [unpackBool]
  rw [advance_eq_of_le s (sizeofBool n : Int) h]
  simp

lemma advance_overrun_iff (s : FixedSizedStream) (bytes : Int)
    (hs : s.d_current_size ≤ s.d_buffer_size) :
    (getPointerAndAdvanceCursor s bytes).overrun = true ↔
      s.d_buffer_size < s.d_buffer_index + bytes := by
  rw [advance_overrun]
  simp only [Bool.and_eq_true, decide_eq_true_eq]
  omega

lemma packRaw_snd (s : FixedSizedStream) (raw : List Nat) (m : Nat) :
    (packRaw s raw m).2 = (getPointerAndAdvanceCursor s (m : Int)).overrun := by
  simp only [packRaw]
  by_cases h : (getPointerAndAdvanceCursor s (m : Int)).overrun <;> simp [h]

lemma unpackRaw_none_iff (s : FixedSizedStream) (m : Nat) :
    ((unpackRaw s m).2 = none) =
      ((getPointerAndAdvanceCursor s (m : Int)).overrun = true) := by
  simp only [unpackRaw]
  by_cases h : (getPointerAndAdvanceCursor s (m : Int)).overrun <;> simp [h]

lemma packBool_snd (s : FixedSizedStream) (data : List Bool) :
    (packBool s data).2 =
      (getPointerAndAdvanceCursor s (sizeofBool data.length : Int)).overrun := by
  simp only [packBool]
  by_cases h :
      (getPointerAndAdvanceCursor s (sizeofBool data.length : Int)).overrun <;>
    simp [h]

lemma unpackBool_none_iff (s : FixedSizedStream) (n : Nat) :
    ((unpackBool s n).2 = none) =
      ((getPointerAndAdvanceCursor s (sizeofBool n : Int)).overrun = true) := by
  simp only [unpackBool]
  by_cases h : (getPointerAndAdvanceCursor s (sizeofBool n : Int)).overrun <;>
    simp [h]

lemma packRaw_fst_fields (s : FixedSizedStream) (raw : List Nat) (m : Nat) :
    (packRaw s raw m).1.d_buffer_size = s.d_buffer_size ∧
    (packRaw s raw m).1.d_buffer_index = s.d_buffer_index + m ∧
    (packRaw s raw m).1.d_current_size =
      max s.d_current_size (s.d_buffer_index + m) := by
  simp only [packRaw]
  by_cases h : (getPointerAndAdvanceCursor s (m : Int)).overrun <;>
    simp [h, advance_capacity, advance_index, advance_size]

lemma unpackRaw_fst_fields (s : FixedSizedStream) (m : Nat) :
    (unpackRaw s m).1.d_buffer = s.d_buffer ∧
    (unpackRaw s m).1.d_buffer_size = s.d_buffer_size ∧
    (unpackRaw s m).1.d_buffer_index = s.d_buffer_index + m ∧
    (unpackRaw s m).1.d_current_size =
      max s.d_current_size (s.d_buffer_index + m) := by
  simp only [unpackRaw]
  by_cases h : (getPointerAndAdvanceCursor s (m : Int)).overrun <;>
    simp [h, advance_buffer, advance_capacity, advance_index, advance_size]

lemma packBool_fst_fields (s : FixedSizedStream) (data : List Bool) :
    (packBool s data).1.d_buffer_size = s.d_buffer_size ∧
    (packBool s data).1.d_buffer_index =
      s.d_buffer_index + sizeofBool data.length ∧
    (packBool s data).1.d_current_size =
      max s.d_current_size (s.d_buffer_index + sizeofBool data.length) := by
  simp only [packBool]
  by_cases h :
      (getPointerAndAdvanceCursor s (sizeofBool data.length : Int)).overrun <;>
    simp [h, advance_capacity, advance_index, advance_size]

lemma unpackBool_fst_fields (s : FixedSizedStream) (n : Nat) :
    (unpackBool s n).1.d_buffer = s.d_buffer ∧
    (unpackBool s n).1.d_buffer_size = s.d_buffer_size ∧
    (unpackBool s n).1.d_buffer_index = s.d_buffer_index + sizeofBool n ∧
    (unpackBool s n).1.d_current_size =
      max s.d_current_size (s.d_buffer_index + sizeofBool n) := by
  simp only [unpackBool]
  by_cases h : (getPointerAndAdvanceCursor s (sizeofBool n : Int)).overrun <;>
    simp [h, advance_buffer, advance_capacity, advance_index, advance_size]

/-! ## Step lemmas and the reachability invariant -/

lemma advance_not_overrun_bound (s : FixedSizedStream) (bytes : Int)
    (h : (getPointerAndAdvanceCursor s bytes).overrun = false) :
    s.d_current_size < s.d_buffer_index + bytes →
      s.d_buffer_index + bytes ≤ s.d_buffer_size := by
  rw [advance_overrun] at h
  simp only [Bool.and_eq_false_iff, decide_eq_false_iff_not, not_lt] at h
  intro h'
  rcases h with h | h
  · omega
  · omega

lemma stepOp_some_fields (s : FixedSizedStream) (op : SOp)
    (s' : FixedSizedStream) (h : stepOp s op = some s') :
    s'.d_buffer_size = s.d_buffer_size ∧
    s.d_current_size ≤ s'.d_current_size ∧
    s'.d_current_size ≤ max s.d_current_size s.d_buffer_size := by
  cases op with
  | pack raw m =>
    simp only [stepOp] at h
    by_cases he : (packRaw s raw m).2 = true
    · simp [he] at h
    · simp only [he, if_false, Option.some.injEq, Bool.false_eq_true,
        if_neg] at h
      subst h
      obtain ⟨h1, h2, h3⟩ := packRaw_fst_fields s raw m
      have hb := advance_not_overrun_bound s (m : Int)
        (by rw [← packRaw_snd s raw m]; exact Bool.eq_false_iff.mpr he)
      refine ⟨h1, ?_, ?_⟩ <;> rw [h3] <;> omega
  | packB data =>
    simp only [stepOp] at h
    by_cases he : (packBool s data).2 = true
    · simp [he] at h
    · simp only [he, if_false, Option.some.injEq, Bool.false_eq_true,
        if_neg] at h
      subst h
      obtain ⟨h1, h2, h3⟩ := packBool_fst_fields s data
      have hb := advance_not_overrun_bound s (sizeofBool data.length : Int)
        (by rw [← packBool_snd s data]; exact Bool.eq_false_iff.mpr he)
      refine ⟨h1, ?_, ?_⟩ <;> rw [h3] <;> omega
  | unpack m =>
    simp only [stepOp] at h
    by_cases he : (unpackRaw s m).2.isSome
    · simp only [he, if_true, Option.some.injEq] at h
      subst h
      obtain ⟨h0, h1, h2, h3⟩ := unpackRaw_fst_fields s m
      have hb := advance_not_overrun_bound s (m : Int) ?_
      · refine ⟨h1, ?_, ?_⟩ <;> rw [h3] <;> omega
      · by_contra hc
        rw [Bool.not_eq_false] at hc
        rw [← unpackRaw_none_iff] at hc
        rw [hc] at he
        simp at he
    · simp [he] at h
  | unpackB n =>
    simp only [stepOp] at h
    by_cases he : (unpackBool s n).2.isSome
    · simp only [he, if_true, Option.some.injEq] at h
      subst h
      obtain ⟨h0, h1, h2, h3⟩ := unpackBool_fst_fields s n
      have hb := advance_not_overrun_bound s (sizeofBool n : Int) ?_
      · refine ⟨h1, ?_, ?_⟩ <;> rw [h3] <;> omega
      · by_contra hc
        rw [Bool.not_eq_false] at hc
        rw [← unpackBool_none_iff] at hc
        rw [hc] at he
        simp at he
    · simp [he] at h
  | seek i =>
    simp only [stepOp, Option.some.injEq] at h
    subst h
    exact ⟨rfl, le_rfl, le_max_left _ _⟩

/-- Invariant of reachable states: the capacity is non-negative and the
high-water mark never exceeds it (the program aborts the moment it would). -/
lemma reachable_inv (s : FixedSizedStream) (h : Reachable s) :
    0 ≤ s.d_buffer_size ∧ s.d_current_size ≤ s.d_buffer_size := by
  induction h with
  | fresh C hC => exact ⟨hC, hC⟩
  | step s op s' hs hstep ih =>
    obtain ⟨h1, h2, h3⟩ := stepOp_some_fields s op s' hstep
    constructor
    · rw [h1]; exact ih.1
    · rw [h1]
      have := ih.2
      omega

/-! ## Call-sequence lemmas -/

lemma encodeCall_length (c : Call) (h : callWF c = true) :
    (encodeCall c).length = callBytes c := by
  cases c with
  | bools d => simp [encodeCall, callBytes, sizeofBool]
  | raw k n d =>
    simp only [callWF, beq_iff_eq] at h
    simp [encodeCall, callBytes, h]

lemma runPackCall_raw (s : FixedSizedStream) (k : RawKind) (n : Nat)
    (d : List Nat) :
    runPackCall s (.raw k n d) = packRaw s d (sizeofRawKind k n) := by
  cases k <;> rfl

lemma runUnpackCall_raw (s : FixedSizedStream) (k : RawKind) (n : Nat)
    (d : List Nat) :
    runUnpackCall s (.raw k n d) =
      ((unpackRaw s (sizeofRawKind k n)).1,
        (unpackRaw s (sizeofRawKind k n)).2.map .raw) := by
  cases k <;> rfl

lemma bool_decode_encode (d : List Bool) :
    (d.map fun b => if b then (1 : Nat) else 0).map (fun c => c == 1) = d := by
  induction d with
  | nil => rfl
  | cons b d ih =>
    simp only [List.map_cons, ih, List.cons.injEq, and_true]
    cases b <;> rfl

lemma runPackCall_of_le (s : FixedSizedStream) (c : Call)
    (hwf : callWF c = true)
    (h : s.d_buffer_index + (callBytes c : Int) ≤ s.d_buffer_size) :
    runPackCall s c =
      ({ d_buffer := writeBytes s.d_buffer s.d_buffer_index (encodeCall c)
         d_buffer_size := s.d_buffer_size
         d_buffer_index := s.d_buffer_index + callBytes c
         d_current_size :=
           max s.d_current_size (s.d_buffer_index + callBytes c) },
        false) := by
  cases c with
  | bools d =>
    simp only [runPackCall]
    rw [packBool_of_le s d h]
    rfl
  | raw k n d =>
    rw [runPackCall_raw]
    rw [packRaw_of_le s d (sizeofRawKind k n) h]
    rfl

lemma runUnpackCall_of_le (s : FixedSizedStream) (c : Call)
    (hwf : callWF c = true)
    (h : s.d_buffer_index + (callBytes c : Int) ≤ s.d_buffer_size) :
    runUnpackCall s c =
      ({ s with
          d_buffer_index := s.d_buffer_index + callBytes c
          d_current_size :=
            max s.d_current_size (s.d_buffer_index + callBytes c) },
        some (decodeVals c (readBytes s.d_buffer s.d_buffer_index (callBytes c)))) := by
  cases c with
  | bools d =>
    simp only [runUnpackCall]
    rw [unpackBool_of_le s d.length h]
    rfl
  | raw k n d =>
    rw [runUnpackCall_raw]
    rw [unpackRaw_of_le s (sizeofRawKind k n) h]
    rfl

lemma decodeVals_encodeCall (c : Call) (h : callWF c = true) :
    decodeVals c (encodeCall c) = callVals c := by
  cases c with
  | bools d =>
    simp only [decodeVals, encodeCall, callVals]
    rw [bool_decode_encode]
  | raw k n d =>
    simp only [callWF, beq_iff_eq] at h
    simp [decodeVals, encodeCall, callVals, ← h]

lemma runPack_spec (calls : List Call) : ∀ s : FixedSizedStream,
    callsWF calls = true →
    s.d_buffer_index + (totalBytes calls : Int) ≤ s.d_buffer_size →
    (runPack s calls).2 = false ∧
    (runPack s calls).1.d_buffer_size = s.d_buffer_size ∧
    (runPack s calls).1.d_buffer_index =
      s.d_buffer_index + totalBytes calls ∧
    (calls ≠ [] → (runPack s calls).1.d_current_size =
      max s.d_current_size (s.d_buffer_index + totalBytes calls)) ∧
    readBytes (runPack s calls).1.d_buffer s.d_buffer_index
      (totalBytes calls) = (calls.map encodeCall).flatten ∧
    (∀ x : Int,
      x < s.d_buffer_index ∨ s.d_buffer_index + totalBytes calls ≤ x →
      (runPack s calls).1.d_buffer x = s.d_buffer x) := by
  induction calls with
  | nil =>
    intro s hwf hcap
    refine ⟨rfl, rfl, by simp [totalBytes, runPack], by simp, ?_,
      fun x _ => rfl⟩
    simp [totalBytes, runPack, readBytes]
  | cons c cs ih =>
    intro s hwf hcap
    rw [callsWF, List.all_cons, Bool.and_eq_true] at hwf
    obtain ⟨hwfc, hwfcs⟩ := hwf
    have htot : totalBytes (c :: cs) = callBytes c + totalBytes cs := by
      simp [totalBytes]
    have hb : s.d_buffer_index + (callBytes c : Int) ≤ s.d_buffer_size := by
      rw [htot] at hcap
      push_cast at hcap
      omega
    have hpc := runPackCall_of_le s c hwfc hb
    obtain ⟨e1, e2, e3, e4, e5, e6⟩ := ih
      { d_buffer := writeBytes s.d_buffer s.d_buffer_index (encodeCall c)
        d_buffer_size := s.d_buffer_size
        d_buffer_index := s.d_buffer_index + callBytes c
        d_current_size :=
          max s.d_current_size (s.d_buffer_index + callBytes c) }
      hwfcs
      (by
        dsimp only
        rw [htot] at hcap
        push_cast at hcap ⊢
        omega)
    simp only [runPack, hpc, Bool.false_eq_true, if_false]
    refine ⟨e1, ?_, ?_, ?_, ?_, ?_⟩
    · rw [e2]
    · rw [e3]
      dsimp only
      rw [htot]
      push_cast
      ring
    · intro _
      rcases cs with _ | ⟨c2, cs2⟩
      · simp [runPack, totalBytes]
      · rw [e4 (by simp)]
        dsimp only
        rw [htot]
        push_cast
        omega
    · rw [htot, readBytes_add]
      have hfirst :
          readBytes (runPack
            { d_buffer := writeBytes s.d_buffer s.d_buffer_index (encodeCall c)
              d_buffer_size := s.d_buffer_size
              d_buffer_index := s.d_buffer_index + callBytes c
              d_current_size :=
                max s.d_current_size (s.d_buffer_index + callBytes c) }
            cs).1.d_buffer s.d_buffer_index (callBytes c) =
            encodeCall c := by
        rw [readBytes_congr (callBytes c) _
          (writeBytes s.d_buffer s.d_buffer_index (encodeCall c))
          s.d_buffer_index
          (fun x hx hx' => e6 x (Or.inl (by dsimp only; omega)))]
        conv_lhs =>
          rw [show callBytes c = (encodeCall c).length from
            (encodeCall_length c hwfc).symm]
        exact readBytes_writeBytes (encodeCall c) s.d_buffer s.d_buffer_index
      rw [hfirst, e5]
      simp
    · intro x hx
      rw [e6 x ?side]
      · exact writeBytes_apply_out (encodeCall c) s.d_buffer
          s.d_buffer_index x
          (by
            rw [encodeCall_length c hwfc]
            rw [htot] at hx
            push_cast at hx ⊢
            omega)
      case side =>
        dsimp only
        rw [htot] at hx
        push_cast at hx ⊢
        omega

lemma runUnpack_spec (calls : List Call) : ∀ s : FixedSizedStream,
    callsWF calls = true →
    s.d_buffer_index + (totalBytes calls : Int) ≤ s.d_buffer_size →
    readBytes s.d_buffer s.d_buffer_index (totalBytes calls) =
      (calls.map encodeCall).flatten →
    (runUnpack s calls).2 = some (calls.map callVals) := by
  induction calls with
  | nil => intro s _ _ _; rfl
  | cons c cs ih =>
    intro s hwf hcap hread
    rw [callsWF, List.all_cons, Bool.and_eq_true] at hwf
    obtain ⟨hwfc, hwfcs⟩ := hwf
    have htot : totalBytes (c :: cs) = callBytes c + totalBytes cs := by
      simp [totalBytes]
    have hb : s.d_buffer_index + (callBytes c : Int) ≤ s.d_buffer_size := by
      rw [htot] at hcap
      push_cast at hcap
      omega
    have huc := runUnpackCall_of_le s c hwfc hb
    rw [htot, readBytes_add] at hread
    simp only [List.map_cons, List.flatten_cons] at hread
    have hsplit := List.append_inj hread
      (by rw [readBytes_length, encodeCall_length c hwfc])
    have ihr := ih
      { s with
          d_buffer_index := s.d_buffer_index + callBytes c
          d_current_size :=
            max s.d_current_size (s.d_buffer_index + callBytes c) }
      hwfcs
      (by
        dsimp only
        rw [htot] at hcap
        push_cast at hcap ⊢
        omega)
      hsplit.2
    simp only [runUnpack, huc]
    rw [hsplit.1, decodeVals_encodeCall c hwfc]
    rw [ihr]
    simp

/-! ## Trace lemmas for the high-water mark -/

lemma stepOp_nonseek_size (s : FixedSizedStream) (op : SOp)
    (s' : FixedSizedStream) (h : stepOp s op = some s')
    (hns : ∀ i, op ≠ SOp.seek i) :
    s'.d_current_size = max s.d_current_size s'.d_buffer_index := by
  cases op with
  | pack raw m =>
    simp only [stepOp] at h
    by_cases he : (packRaw s raw m).2 = true
    · simp [he] at h
    · simp only [he, Bool.false_eq_true, if_neg, Option.some.injEq,
        if_false] at h
      subst h
      obtain ⟨_, h2, h3⟩ := packRaw_fst_fields s raw m
      rw [h3, h2]
  | packB data =>
    simp only [stepOp] at h
    by_cases he : (packBool s data).2 = true
    · simp [he] at h
    · simp only [he, Bool.false_eq_true, if_neg, Option.some.injEq,
        if_false] at h
      subst h
      obtain ⟨_, h2, h3⟩ := packBool_fst_fields s data
      rw [h3, h2]
  | unpack m =>
    simp only [stepOp] at h
    by_cases he : (unpackRaw s m).2.isSome
    · simp only [he, if_true, Option.some.injEq] at h
      subst h
      obtain ⟨_, _, h2, h3⟩ := unpackRaw_fst_fields s m
      rw [h3, h2]
    · simp [he] at h
  | unpackB n =>
    simp only [stepOp] at h
    by_cases he : (unpackBool s n).2.isSome
    · simp only [he, if_true, Option.some.injEq] at h
      subst h
      obtain ⟨_, _, h2, h3⟩ := unpackBool_fst_fields s n
      rw [h3, h2]
    · simp [he] at h
  | seek i => exact absurd rfl (hns i)

lemma stepOp_seek_size (s : FixedSizedStream) (i : Int)
    (s' : FixedSizedStream) (h : stepOp s (SOp.seek i) = some s') :
    s'.d_current_size = s.d_current_size := by
  simp only [stepOp, Option.some.injEq] at h
  subst h
  rfl

lemma runTraceAdv_size (ops : List SOp) :
    ∀ (s : FixedSizedStream) (acc : Int), s.d_current_size = acc →
    ∀ (s' : FixedSizedStream) (m : Int),
      runTraceAdv s acc ops = some (s', m) → s'.d_current_size = m := by
  induction ops with
  | nil =>
    intro s acc hacc s' m h
    simp only [runTraceAdv, Option.some.injEq, Prod.mk.injEq] at h
    rw [← h.1, ← h.2]
    exact hacc
  | cons op ops ih =>
    intro s acc hacc s' m h
    simp only [runTraceAdv] at h
    cases hst : stepOp s op with
    | none => rw [hst] at h; simp at h
    | some s1 =>
      rw [hst] at h
      cases op with
      | seek i =>
        exact ih s1 acc
          (by rw [stepOp_seek_size s i s1 hst]; exact hacc) s' m h
      | pack raw mb =>
        refine ih s1 (max acc s1.d_buffer_index) ?_ s' m h
        rw [stepOp_nonseek_size s _ s1 hst (by intro i hi; cases hi), hacc]
      | packB data =>
        refine ih s1 (max acc s1.d_buffer_index) ?_ s' m h
        rw [stepOp_nonseek_size s _ s1 hst (by intro i hi; cases hi), hacc]
      | unpack mb =>
        refine ih s1 (max acc s1.d_buffer_index) ?_ s' m h
        rw [stepOp_nonseek_size s _ s1 hst (by intro i hi; cases hi), hacc]
      | unpackB nb =>
        refine ih s1 (max acc s1.d_buffer_index) ?_ s' m h
        rw [stepOp_nonseek_size s _ s1 hst (by intro i hi; cases hi), hacc]

lemma readBytes_map_getD (p : Nat → Bool) (buf : Int → Nat) (a : Int) :
    ∀ (n i : Nat), i < n →
      ((readBytes buf a n).map p).getD i false = p (buf (a + i)) := by
  intro n
  induction n generalizing a with
  | zero => intro i hi; omega
  | succ n ihn =>
    intro i hi
    cases i with
    | zero =>
      simp [readBytes]
    | succ i =>
      simp only [readBytes, List.map_cons, List.getD_cons_succ]
      rw [ihn (a + 1) i (by omega)]
      have : a + 1 + (i : Int) = a + ((i : Nat) + 1 : Nat) := by
        push_cast
        ring
      rw [this]

/-! ## Claim theorems -/

/-- C7: `resetIndex()` is exactly `setCurrentIndex(0)` and modifies only the
cursor: afterwards the cursor is 0 while the buffer contents, the capacity and
`getCurrentSize()` are unchanged. -/
theorem resetIndex_is_seek_zero (s : FixedSizedStream) :
    resetIndex s = setCurrentIndex s 0 ∧
    getCurrentIndex (resetIndex s) = 0 ∧
    (resetIndex s).d_buffer = s.d_buffer ∧
    (resetIndex s).d_buffer_size = s.d_buffer_size ∧
    getCurrentSize (resetIndex s) = getCurrentSize s :=
  ⟨rfl, rfl, rfl, rfl, rfl⟩

/-- C9: when `getPointerAndAdvanceCursor` raises the buffer-overrun error, the
cursor and the high-water mark have already been set to the out-of-bounds
value `old cursor + bytes`, which exceeds the capacity. -/
theorem overrun_state_not_atomic (s : FixedSizedStream) (bytes : Int)
    (h : (getPointerAndAdvanceCursor s bytes).overrun = true) :
    (getPointerAndAdvanceCursor s bytes).st.d_buffer_index =
      s.d_buffer_index + bytes ∧
    (getPointerAndAdvanceCursor s bytes).st.d_current_size =
      s.d_buffer_index + bytes ∧
    s.d_buffer_size < s.d_buffer_index + bytes := by
  rw [advance_overrun] at h
  simp only [Bool.and_eq_true, decide_eq_true_eq] at h
  refine ⟨advance_index s bytes, ?_, h.2⟩
  rw [advance_size]
  omega

/-- Witness for C9: a fresh 4-byte stream advanced by 8 bytes. -/
theorem overrun_state_not_atomic_witness :
    (getPointerAndAdvanceCursor (freshStream 4) 8).overrun = true ∧
    ((getPointerAndAdvanceCursor (freshStream 4) 8).st.d_buffer_index =
        (freshStream 4).d_buffer_index + 8 ∧
      (getPointerAndAdvanceCursor (freshStream 4) 8).st.d_current_size =
        (freshStream 4).d_buffer_index + 8 ∧
      (freshStream 4).d_buffer_size < (freshStream 4).d_buffer_index + 8) :=
  ⟨by decide, overrun_state_not_atomic (freshStream 4) 8 (by decide)⟩

/-- C3: a pack or unpack that fails with the buffer-overrun error writes no
byte of the buffer (`TBOX_ERROR` fires before the caller's `memcpy`) and an
unpack that fails copies nothing out (its output is `none` by
construction). -/
theorem overrun_no_partial_write (s : FixedSizedStream) :
    (∀ (raw : List Nat) (m : Nat), (packRaw s raw m).2 = true →
      (packRaw s raw m).1.d_buffer = s.d_buffer) ∧
    (∀ data : List Bool, (packBool s data).2 = true →
      (packBool s data).1.d_buffer = s.d_buffer) ∧
    (∀ m : Nat, (unpackRaw s m).1.d_buffer = s.d_buffer) ∧
    (∀ n : Nat, (unpackBool s n).1.d_buffer = s.d_buffer) := by
  refine ⟨?_, ?_, ?_, ?_⟩
  · intro raw m h
    simp only [packRaw] at h ⊢
    by_cases ho : (getPointerAndAdvanceCursor s (m : Int)).overrun
    · simp only [ho, if_true]
      exact advance_buffer s (m : Int)
    · simp [ho] at h
  · intro data h
    simp only [packBool] at h ⊢
    by_cases ho :
        (getPointerAndAdvanceCursor s (sizeofBool data.length : Int)).overrun
    · simp only [ho, if_true]
      exact advance_buffer s (sizeofBool data.length : Int)
    · simp [ho] at h
  · intro m
    exact (unpackRaw_fst_fields s m).1
  · intro n
    exact (unpackBool_fst_fields s n).1

/-- Witness for C3: an 8-byte pack on a fresh 4-byte stream fails and leaves
the (zeroed) buffer untouched. -/
theorem overrun_no_partial_write_witness :
    (packRaw (freshStream 4) (List.replicate 8 7) 8).2 = true ∧
    (packRaw (freshStream 4) (List.replicate 8 7) 8).1.d_buffer =
      (freshStream 4).d_buffer :=
  ⟨by decide,
    (overrun_no_partial_write (freshStream 4)).1 (List.replicate 8 7) 8
      (by decide)⟩

/-- C2: on every reachable state, a pack/unpack raises the buffer-overrun
error exactly when the advanced cursor would exceed the capacity; within
bounds the operations succeed (and `setCurrentIndex`, `resetIndex` and the
getters are total functions with no error path). -/
theorem overrun_iff_capacity_exceeded (s : FixedSizedStream)
    (hs : Reachable s) :
    (∀ bytes : Int, (getPointerAndAdvanceCursor s bytes).overrun = true ↔
      s.d_buffer_size < s.d_buffer_index + bytes) ∧
    (∀ (raw : List Nat) (m : Nat), (packRaw s raw m).2 = true ↔
      s.d_buffer_size < s.d_buffer_index + m) ∧
    (∀ m : Nat, (unpackRaw s m).2 = none ↔
      s.d_buffer_size < s.d_buffer_index + m) ∧
    (∀ data : List Bool, (packBool s data).2 = true ↔
      s.d_buffer_size < s.d_buffer_index + sizeofBool data.length) ∧
    (∀ n : Nat, (unpackBool s n).2 = none ↔
      s.d_buffer_size < s.d_buffer_index + sizeofBool n) := by
  have hinv := (reachable_inv s hs).2
  refine ⟨fun bytes => advance_overrun_iff s bytes hinv, ?_, ?_, ?_, ?_⟩
  · intro raw m
    rw [packRaw_snd]
    exact advance_overrun_iff s _ hinv
  · intro m
    rw [unpackRaw_none_iff]
    exact advance_overrun_iff s _ hinv
  · intro data
    rw [packBool_snd]
    exact advance_overrun_iff s _ hinv
  · intro n
    rw [unpackBool_none_iff]
    exact advance_overrun_iff s _ hinv

/-- Witness for C2: on a fresh 4-byte stream an 8-byte pack overruns, and the
error direction is instantiated concretely. -/
theorem overrun_iff_capacity_exceeded_witness :
    (packRaw (freshStream 4) (List.replicate 8 0) 8).2 = true :=
  ((overrun_iff_capacity_exceeded (freshStream 4)
      (Reachable.fresh 4 (by decide))).2.1 (List.replicate 8 0) 8).mpr
    (by decide)

/-- C8: the capacity check runs only when the advanced cursor strictly
exceeds the previous high-water mark; consequently a reachable state exists
(seek to -8 after packing 8 bytes) on which a 4-byte pack succeeds although
every address it touches is below the buffer (negative). -/
theorem capacity_check_skipped_below_highwater :
    (∀ (s : FixedSizedStream) (bytes : Int),
      s.d_buffer_index + bytes ≤ s.d_current_size →
      (getPointerAndAdvanceCursor s bytes).overrun = false) ∧
    (Reachable demoOOB ∧
      (packRaw demoOOB (List.replicate 4 9) 4).2 = false ∧
      (getPointerAndAdvanceCursor demoOOB 4).ptr + 4 ≤ 0) := by
  constructor
  · intro s bytes h
    rw [advance_overrun]
    simp only [Bool.and_eq_false_iff, decide_eq_false_iff_not, not_lt]
    left
    omega
  · refine ⟨?_, by decide, by decide⟩
    refine Reachable.step _ (SOp.seek (-8)) _ ?_ rfl
    exact Reachable.step _ (SOp.pack (List.replicate 8 1) 8) _
      (Reachable.fresh 16 (by decide)) rfl

/-- Witness for C8: the skipped-check direction instantiated on `demoOOB`
itself (cursor -8, high-water mark 8, 4 requested bytes). -/
theorem capacity_check_skipped_witness :
    demoOOB.d_buffer_index + 4 ≤ demoOOB.d_current_size ∧
    (getPointerAndAdvanceCursor demoOOB 4).overrun = false :=
  ⟨by decide, capacity_check_skipped_below_highwater.1 demoOOB 4 (by decide)⟩

/-- C10: boolean unpack decodes a stored byte as `true` exactly when the byte
equals 1 — any other value, canonical or not, decodes to `false`. -/
theorem unpackBool_decodes_eq_one (s : FixedSizedStream) (n : Nat)
    (out : List Bool) (h : (unpackBool s n).2 = some out)
    (i : Nat) (hi : i < n) :
    out.getD i false = (s.d_buffer (s.d_buffer_index + i) == 1) := by
  simp only [unpackBool] at h
  by_cases ho : (getPointerAndAdvanceCursor s (sizeofBool n : Int)).overrun
  · simp [ho] at h
  · simp only [ho, Bool.false_eq_true, if_neg, if_false,
      Option.some.injEq] at h
    rw [← h]
    rw [advance_ptr]
    exact readBytes_map_getD (fun c => c == 1) s.d_buffer s.d_buffer_index
      n i hi

/-- Witness for C10: a buffer holding bytes 2, 255, 1, 0 decodes to
`[false, false, true, false]`; position 2 (byte 1) is checked through the
theorem. -/
theorem unpackBool_decodes_eq_one_witness :
    (unpackBool demoBoolBuf 4).2 = some [false, false, true, false] ∧
    (2 : Nat) < 4 ∧
    [false, false, true, false].getD 2 false =
      (demoBoolBuf.d_buffer (demoBoolBuf.d_buffer_index + (2 : Nat)) == 1) :=
  ⟨by decide, by decide,
    unpackBool_decodes_eq_one demoBoolBuf 4 [false, false, true, false]
      (by decide) 2 (by decide)⟩

/-- C4 counterexample: after the single operation `setCurrentIndex(10)` on a
fresh 16-byte stream, the maximum cursor value reached is 10 but
`getCurrentSize()` is 0 — so `getCurrentSize()` does not equal the maximum
cursor value reached when a seek moves the cursor past the high-water
mark. -/
theorem highWaterMark_seek_counterexample :
    (runTrace (freshStream 16) 0 [SOp.seek 10]).map
      (fun p => (getCurrentSize p.1, p.2)) = some (0, 10) ∧
    ((0 : Int) = 10 → False) :=
  ⟨by decide, by decide⟩

/-- C4 (amended): after any successful sequence of pack/unpack/seek
operations on a fresh stream, `getCurrentSize()` equals the maximum cursor
value reached by pack/unpack advances (taking the initial cursor 0 into
account); cursor values merely set by `setCurrentIndex` do not count until an
advance passes them.  The high-water mark is monotonically non-decreasing
across all these operations. -/
theorem highWaterMark_tracks_advances :
    (∀ (C : Int) (ops : List SOp) (s' : FixedSizedStream) (m : Int),
      runTraceAdv (freshStream C) 0 ops = some (s', m) →
      getCurrentSize s' = m) ∧
    (∀ (s : FixedSizedStream) (op : SOp) (s' : FixedSizedStream),
      stepOp s op = some s' → getCurrentSize s ≤ getCurrentSize s') := by
  constructor
  · intro C ops s' m h
    exact runTraceAdv_size ops (freshStream C) 0 rfl s' m h
  · intro s op s' h
    exact (stepOp_some_fields s op s' h).2.1

/-- Witness for C4 (amended): the seek-to-10 trace keeps the mark at 0, and
the single seek step does not decrease it. -/
theorem highWaterMark_tracks_advances_witness :
    runTraceAdv (freshStream 16) 0 [SOp.seek 10] =
      some (setCurrentIndex (freshStream 16) 10, 0) ∧
    getCurrentSize (setCurrentIndex (freshStream 16) 10) = 0 ∧
    stepOp (freshStream 16) (SOp.seek 10) =
      some (setCurrentIndex (freshStream 16) 10) ∧
    getCurrentSize (freshStream 16) ≤
      getCurrentSize (setCurrentIndex (freshStream 16) 10) :=
  ⟨rfl, highWaterMark_tracks_advances.1 16 [SOp.seek 10] _ 0 rfl, rfl,
    highWaterMark_tracks_advances.2 (freshStream 16) (SOp.seek 10) _ rfl⟩

/-- C5: every successful pack call advances the cursor by exactly the packed
width of its kind times the element count and raises the high-water mark to
the new cursor when it exceeds it; concretely, on a 16-byte stream, packing
one int then one double leaves cursor = 12 = `getCurrentSize()`, and after
`resetIndex()` unpacking an int then a double returns the original
representations bit-identically. -/
theorem pack_advances_by_width :
    (∀ (s : FixedSizedStream) (c : Call), (runPackCall s c).2 = false →
      getCurrentIndex (runPackCall s c).1 =
        getCurrentIndex s + callBytes c ∧
      getCurrentSize (runPackCall s c).1 =
        max (getCurrentSize s) (getCurrentIndex (runPackCall s c).1)) ∧
    (∀ b42 bpi : List Nat, b42.length = 4 → bpi.length = 8 →
      (runPack (freshStream 16)
        [Call.raw .int 1 b42, Call.raw .double 1 bpi]).2 = false ∧
      getCurrentIndex (runPack (freshStream 16)
        [Call.raw .int 1 b42, Call.raw .double 1 bpi]).1 = 12 ∧
      getCurrentSize (runPack (freshStream 16)
        [Call.raw .int 1 b42, Call.raw .double 1 bpi]).1 = 12 ∧
      (runUnpack (resetIndex (runPack (freshStream 16)
          [Call.raw .int 1 b42, Call.raw .double 1 bpi]).1)
        [Call.raw .int 1 b42, Call.raw .double 1 bpi]).2 =
        some [Vals.raw b42, Vals.raw bpi]) := by
  constructor
  · intro s c _
    cases c with
    | bools d =>
      obtain ⟨_, h2, h3⟩ := packBool_fst_fields s d
      simp only [runPackCall, getCurrentIndex, getCurrentSize, callBytes]
      exact ⟨h2, by rw [h3, h2]⟩
    | raw k n d =>
      obtain ⟨_, h2, h3⟩ := packRaw_fst_fields s d (sizeofRawKind k n)
      rw [runPackCall_raw]
      simp only [getCurrentIndex, getCurrentSize, callBytes]
      exact ⟨h2, by rw [h3, h2]⟩
  · intro b42 bpi h42 hpi
    have hwf : callsWF [Call.raw .int 1 b42, Call.raw .double 1 bpi] =
        true := by
      simp [callsWF, callWF, sizeofRawKind, sizeofInt, sizeofDouble, h42, hpi]
    have htot : totalBytes [Call.raw .int 1 b42, Call.raw .double 1 bpi] =
        12 := by
      simp [totalBytes, callBytes, sizeofRawKind, sizeofInt, sizeofDouble]
    obtain ⟨e1, e2, e3, e4, e5, e6⟩ :=
      runPack_spec [Call.raw .int 1 b42, Call.raw .double 1 bpi]
        (freshStream 16) hwf (by rw [htot]; decide)
    refine ⟨e1, ?_, ?_, ?_⟩
    · simp only [getCurrentIndex]
      rw [e3, htot]
      decide
    · simp only [getCurrentSize]
      rw [e4 (by simp), htot]
      decide
    · have hu := runUnpack_spec
        [Call.raw .int 1 b42, Call.raw .double 1 bpi]
        (resetIndex (runPack (freshStream 16)
          [Call.raw .int 1 b42, Call.raw .double 1 bpi]).1)
        hwf ?cap ?read
      · rw [hu]
        rfl
      case cap =>
        show (0 : Int) + (totalBytes
          [Call.raw .int 1 b42, Call.raw .double 1 bpi] : Int) ≤
          (runPack (freshStream 16)
            [Call.raw .int 1 b42, Call.raw .double 1 bpi]).1.d_buffer_size
        rw [e2, htot]
        decide
      case read => exact e5

/-- Witness for C5: the scenario instantiated at the little-endian bytes of
int 42 and of the double 3.14. -/
theorem pack_advances_by_width_witness :
    ([42, 0, 0, 0] : List Nat).length = 4 ∧
    ([31, 133, 235, 81, 184, 30, 9, 64] : List Nat).length = 8 ∧
    ((runPack (freshStream 16)
        [Call.raw .int 1 [42, 0, 0, 0],
          Call.raw .double 1 [31, 133, 235, 81, 184, 30, 9, 64]]).2 =
        false ∧
      getCurrentIndex (runPack (freshStream 16)
        [Call.raw .int 1 [42, 0, 0, 0],
          Call.raw .double 1 [31, 133, 235, 81, 184, 30, 9, 64]]).1 = 12 ∧
      getCurrentSize (runPack (freshStream 16)
        [Call.raw .int 1 [42, 0, 0, 0],
          Call.raw .double 1 [31, 133, 235, 81, 184, 30, 9, 64]]).1 = 12 ∧
      (runUnpack (resetIndex (runPack (freshStream 16)
          [Call.raw .int 1 [42, 0, 0, 0],
            Call.raw .double 1 [31, 133, 235, 81, 184, 30, 9, 64]]).1)
        [Call.raw .int 1 [42, 0, 0, 0],
          Call.raw .double 1 [31, 133, 235, 81, 184, 30, 9, 64]]).2 =
        some [Vals.raw [42, 0, 0, 0],
          Vals.raw [31, 133, 235, 81, 184, 30, 9, 64]]) :=
  ⟨rfl, rfl,
    pack_advances_by_width.2 [42, 0, 0, 0]
      [31, 133, 235, 81, 184, 30, 9, 64] rfl rfl⟩

/-- C6: packing a boolean array stores each element as one canonical byte
(1 for true, 0 for false) at consecutive offsets from the cursor, and
unpacking the same count after `resetIndex()` returns the original array. -/
theorem packBool_canonical_bytes (C : Int) (data : List Bool)
    (h : (data.length : Int) ≤ C) :
    (packBool (freshStream C) data).2 = false ∧
    readBytes (packBool (freshStream C) data).1.d_buffer 0 data.length =
      data.map (fun b => if b then 1 else 0) ∧
    (unpackBool (resetIndex (packBool (freshStream C) data).1)
      data.length).2 = some data := by
  have hb : (freshStream C).d_buffer_index +
      (sizeofBool data.length : Int) ≤ (freshStream C).d_buffer_size := by
    simp only [freshStream, sizeofBool]
    omega
  have hread : readBytes
      (writeBytes (freshStream C).d_buffer (freshStream C).d_buffer_index
        (data.map fun b => if b then 1 else 0))
      (freshStream C).d_buffer_index data.length =
      data.map (fun b => if b then 1 else 0) := by
    have hw := readBytes_writeBytes (data.map fun b => if b then (1 : Nat) else 0)
      (freshStream C).d_buffer (freshStream C).d_buffer_index
    rw [List.length_map] at hw
    exact hw
  rw [packBool_of_le (freshStream C) data hb]
  refine ⟨rfl, hread, ?_⟩
  have hb2 : (resetIndex
      { d_buffer :=
          writeBytes (freshStream C).d_buffer (freshStream C).d_buffer_index
            (data.map fun b => if b then 1 else 0)
        d_buffer_size := (freshStream C).d_buffer_size
        d_buffer_index :=
          (freshStream C).d_buffer_index + (sizeofBool data.length : Int)
        d_current_size :=
          max (freshStream C).d_current_size
            ((freshStream C).d_buffer_index +
              (sizeofBool data.length : Int)) }).d_buffer_index +
      (sizeofBool data.length : Int) ≤ C := by
    simp only [resetIndex, setCurrentIndex, sizeofBool]
    omega
  rw [unpackBool_of_le _ data.length hb2]
  show some ((readBytes
      (writeBytes (freshStream C).d_buffer (freshStream C).d_buffer_index
        (data.map fun b => if b then 1 else 0))
      (freshStream C).d_buffer_index data.length).map fun c => c == 1) =
    some data
  rw [hread, bool_decode_encode]

/-- Witness for C6: packing `[true, false, true]` into a 3-byte stream gives
raw bytes `[1, 0, 1]` and unpacks back to `[true, false, true]`. -/
theorem packBool_canonical_bytes_witness :
    (([true, false, true] : List Bool).length : Int) ≤ 3 ∧
    ((packBool (freshStream 3) [true, false, true]).2 = false ∧
      readBytes (packBool (freshStream 3) [true, false, true]).1.d_buffer 0
        3 = [1, 0, 1] ∧
      (unpackBool (resetIndex
        (packBool (freshStream 3) [true, false, true]).1) 3).2 =
        some [true, false, true]) :=
  ⟨by decide, packBool_canonical_bytes 3 [true, false, true] (by decide)⟩

/-- C1: for any sequence of pack calls of the supported kinds that fits in
the capacity, packing from a fresh stream succeeds, and after `resetIndex()`
the same sequence of unpack calls (same kinds, same counts, same order)
returns exactly the packed values — bit-identical byte lists for the
raw-copied kinds, the original booleans under the 0/1 byte encoding. -/
theorem pack_unpack_roundTrip (C : Int) (calls : List Call)
    (hwf : callsWF calls = true)
    (hcap : (totalBytes calls : Int) ≤ C) :
    (runPack (freshStream C) calls).2 = false ∧
    (runUnpack (resetIndex (runPack (freshStream C) calls).1) calls).2 =
      some (calls.map callVals) := by
  obtain ⟨e1, e2, e3, e4, e5, e6⟩ := runPack_spec calls (freshStream C) hwf
    (by
      show (0 : Int) + (totalBytes calls : Int) ≤ C
      omega)
  refine ⟨e1, ?_⟩
  refine runUnpack_spec calls
    (resetIndex (runPack (freshStream C) calls).1) hwf ?_ ?_
  · show (0 : Int) + (totalBytes calls : Int) ≤
      (runPack (freshStream C) calls).1.d_buffer_size
    rw [e2]
    show (0 : Int) + (totalBytes calls : Int) ≤ C
    omega
  · exact e5

/-- Witness for C1: a session packing a boolean array, two characters and one
int into a 16-byte stream round-trips. -/
theorem pack_unpack_roundTrip_witness :
    callsWF [Call.bools [true, false], Call.raw .char 2 [7, 8],
      Call.raw .int 1 [1, 2, 3, 4]] = true ∧
    (totalBytes [Call.bools [true, false], Call.raw .char 2 [7, 8],
      Call.raw .int 1 [1, 2, 3, 4]] : Int) ≤ 16 ∧
    ((runPack (freshStream 16) [Call.bools [true, false],
        Call.raw .char 2 [7, 8], Call.raw .int 1 [1, 2, 3, 4]]).2 = false ∧
      (runUnpack (resetIndex (runPack (freshStream 16)
          [Call.bools [true, false], Call.raw .char 2 [7, 8],
            Call.raw .int 1 [1, 2, 3, 4]]).1)
        [Call.bools [true, false], Call.raw .char 2 [7, 8],
          Call.raw .int 1 [1, 2, 3, 4]]).2 =
        some [Vals.bools [true, false], Vals.raw [7, 8],
          Vals.raw [1, 2, 3, 4]]) :=
  ⟨by decide, by decide,
    pack_unpack_roundTrip 16 [Call.bools [true, false],
      Call.raw .char 2 [7, 8], Call.raw .int 1 [1, 2, 3, 4]]
      (by decide) (by decide)⟩

end IBTK
